import Mathlib

/-!
Verification of the sample-extraction core of the `logue-sdk` repository
(`platform/nts-1_mkii/m1_piano_osc/extract_samples_simple.py` and
`platform/nts-1_mkii/m1_piano_osc/extract_samples.py`).

Sample amplitudes are modelled as exact rationals (`ℚ`); Python's `int()`
truncation and slice semantics are modelled explicitly (`pyInt`, `pySlice`).
Index-typed quantities that the call sites keep non-negative (start samples,
cycle lengths, minimum distances) are carried as `ℕ` via `Int.toNat`.
-/

namespace M1Piano

/-- Python `int()` applied to an exact rational: truncation toward zero. -/
def pyInt (q : ℚ) : Int :=
  if 0 ≤ q then q.floor else -(Rat.floor (-q))

theorem rat_floor_eq_floor (q : ℚ) : q.floor = ⌊q⌋ := by
  rw [Rat.floor_def', Rat.floor_def]

theorem pyInt_of_nonneg {q : ℚ} (h : 0 ≤ q) : pyInt q = ⌊q⌋ := by
  rw [pyInt, if_pos h, rat_floor_eq_floor]

/-- Python list slicing `l[a:b]` for integer bounds `a`, `b`:
negative bounds count from the end, and both bounds clamp to `[0, len]`. -/
def pySlice (l : List ℚ) (a b : Int) : List ℚ :=
  let n : Int := l.length
  let a' : Nat := (if a < 0 then max 0 (n + a) else min a n).toNat
  let b' : Nat := (if b < 0 then max 0 (n + b) else min b n).toNat
  (l.take b').drop a'

/-- One step of the scan in `find_zero_crossings` (extract_samples_simple.py):
if a rising zero crossing at `i` is at least `min_distance` past the last
accepted crossing, append it and update the baseline. -/
def fzcStep (samples : List ℚ) (min_distance : Nat) (i : Nat) (last : Int)
    (acc : List Nat) : List Nat × Int :=
  if samples.getD i 0 ≤ 0 ∧ 0 < samples.getD (i + 1) 0 ∧
      (min_distance : Int) ≤ (i : Int) - last then
    (acc ++ [i], (i : Int))
  else
    (acc, last)

/-- The scan loop of `find_zero_crossings` (extract_samples_simple.py):
`fuel` counts the remaining iterations of `for i in range(start_idx, len-1)`;
after each iteration the loop breaks once `count` crossings are collected. -/
def fzcGo (samples : List ℚ) (count min_distance : Nat) :
    Nat → Nat → Int → List Nat → List Nat
  | 0, _, _, acc => acc
  | Nat.succ fuel, i, last, acc =>
    let st := fzcStep samples min_distance i last acc
    if count ≤ st.1.length then st.1
    else fzcGo samples count min_distance fuel (i + 1) st.2 st.1

/-- `find_zero_crossings(samples, start_idx, count, min_distance)` from
extract_samples_simple.py: collect up to `count` rising zero crossings from
`start_idx`, each at least `min_distance` past the previous one; the
"last crossing" baseline starts at `-min_distance`. -/
def find_zero_crossings (samples : List ℚ) (start_idx count min_distance : Nat) :
    List Nat :=
  fzcGo samples count min_distance (samples.length - 1 - start_idx) start_idx
    (-(min_distance : Int)) []

/-- The scan loop of `find_zero_crossings` from extract_samples.py (the
numpy pipeline): same rising-crossing test, no minimum-distance filter,
break hard-coded at 10 crossings. -/
def fzcNpGo (samples : List ℚ) : Nat → Nat → List Nat → List Nat
  | 0, _, acc => acc
  | Nat.succ fuel, i, acc =>
    let acc' := if samples.getD i 0 ≤ 0 ∧ 0 < samples.getD (i + 1) 0 then
        acc ++ [i]
      else acc
    if 10 ≤ acc'.length then acc'
    else fzcNpGo samples fuel (i + 1) acc'

/-- `find_zero_crossings(samples, start_idx)` from extract_samples.py. -/
def find_zero_crossings_np (samples : List ℚ) (start_idx : Nat) : List Nat :=
  fzcNpGo samples (samples.length - 1 - start_idx) start_idx []

example : find_zero_crossings [-1, 1, -1, 1, -1, 1, -1, 1, -1, 1] 0 10 3
    = [0, 4, 8] := by decide

example : find_zero_crossings_np [-1, 1, -1, 1, -1, 1, -1, 1, -1, 1] 0
    = [0, 2, 4, 6, 8] := by decide

/-- `start_sample = int(start_ms * sample_rate / 1000)` in
`find_best_loop_cycle`. -/
def loopStartSample (start_ms : ℚ) (sample_rate : Nat) : Nat :=
  (pyInt (start_ms * sample_rate / 1000)).toNat

/-- `expected_cycle_len = int(sample_rate / base_freq)` in
`find_best_loop_cycle`. -/
def expectedCycleLen (sample_rate : Nat) (base_freq : ℚ) : Nat :=
  (pyInt ((sample_rate : ℚ) / base_freq)).toNat

/-- `min_dist = int(expected_cycle_len * 0.8)` in `find_best_loop_cycle`
(extract_samples_simple.py only). -/
def loopMinDist (sample_rate : Nat) (base_freq : ℚ) : Nat :=
  (pyInt ((expectedCycleLen sample_rate base_freq : ℚ) * (4 / 5))).toNat

/-- The crossing sequence computed inside `find_best_loop_cycle`
(extract_samples_simple.py): `find_zero_crossings(samples, start_sample, 10,
min_distance=min_dist)`. -/
def loopCrossings (samples : List ℚ) (start_ms : ℚ) (sample_rate : Nat)
    (base_freq : ℚ) : List Nat :=
  find_zero_crossings samples (loopStartSample start_ms sample_rate) 10
    (loopMinDist sample_rate base_freq)

/-- `diff = abs((crossings[i+1] - crossings[i]) - expected_cycle_len)` for
adjacent pair `i`. -/
def diffAt (crossings : List Nat) (expected : Nat) (i : Nat) : Nat :=
  ((crossings.getD (i + 1) 0 : Int) - (crossings.getD i 0 : Int)
    - (expected : Int)).natAbs

/-- The best-pair scan of `find_best_loop_cycle`, generic in the score `d`:
`best_idx = 0`, `best_diff = float('inf')` (modelled as `none`), then for
each `i` in `range(m)` replace the current best on strict improvement only. -/
def bestScan (d : Nat → Nat) (m : Nat) : Nat × Option Nat :=
  (List.range m).foldl
    (fun (st : Nat × Option Nat) i =>
      match st.2 with
      | none => (i, some (d i))
      | some bd => if d i < bd then (i, some (d i)) else st)
    (0, none)

/-- The `best_idx` selected by `find_best_loop_cycle`'s scan over the
adjacent pairs `i ∈ range(len(crossings) - 1)`. -/
def findBestIdx (crossings : List Nat) (expected : Nat) : Nat :=
  (bestScan (diffAt crossings expected) (crossings.length - 1)).1

/-- `find_best_loop_cycle(samples, start_ms, sample_rate, base_freq)` from
extract_samples_simple.py: find the adjacent crossing pair closest to the
expected cycle length and slice it out; with fewer than 2 crossings fall
back to `samples[start_sample : start_sample + expected_cycle_len]`. -/
def find_best_loop_cycle (samples : List ℚ) (start_ms : ℚ) (sample_rate : Nat)
    (base_freq : ℚ) : List ℚ :=
  let start_sample := loopStartSample start_ms sample_rate
  let expected := expectedCycleLen sample_rate base_freq
  let crossings := loopCrossings samples start_ms sample_rate base_freq
  if crossings.length < 2 then
    pySlice samples start_sample (start_sample + expected)
  else
    let best_idx := findBestIdx crossings expected
    pySlice samples (crossings.getD best_idx 0) (crossings.getD (best_idx + 1) 0)

/-- `find_best_loop_cycle` from extract_samples.py (the numpy pipeline):
same structure but the crossing search has no minimum-distance filter. -/
def find_best_loop_cycle_np (samples : List ℚ) (start_ms : ℚ)
    (sample_rate : Nat) (base_freq : ℚ) : List ℚ :=
  let start_sample := loopStartSample start_ms sample_rate
  let expected := expectedCycleLen sample_rate base_freq
  let crossings := find_zero_crossings_np samples start_sample
  if crossings.length < 2 then
    pySlice samples start_sample (start_sample + expected)
  else
    let best_idx := findBestIdx crossings expected
    pySlice samples (crossings.getD best_idx 0) (crossings.getD (best_idx + 1) 0)

/-- The attack slice from `extract_attack_and_loop`:
`attack_samples_count = int(attack_ms * rate / 1000);
attack = samples[:attack_samples_count]`. -/
def extract_attack (samples : List ℚ) (attack_ms : ℚ) (rate : Nat) : List ℚ :=
  pySlice samples 0 (pyInt (attack_ms * rate / 1000))

/-- One output sample of the interpolation loop in `downsample_to_48k`:
`pos = i * ratio; idx = int(pos); frac = pos - idx`, linear interpolation
between `samples[idx]` and `samples[idx+1]`, clamping to `samples[idx]`
when `idx + 1` is out of bounds. -/
def interpAt (samples : List ℚ) (original_rate target_rate : Nat) (i : Nat) :
    ℚ :=
  let pos : ℚ := i * ((original_rate : ℚ) / target_rate)
  let idx : Nat := (pyInt pos).toNat
  let frac : ℚ := pos - idx
  if idx + 1 < samples.length then
    samples.getD idx 0 * (1 - frac) + samples.getD (idx + 1) 0 * frac
  else
    samples.getD idx 0

/-- `new_len = int(len(samples) / ratio)` with `ratio = original_rate /
target_rate` in `downsample_to_48k`. -/
def downsampleLen (n original_rate target_rate : Nat) : Nat :=
  (pyInt ((n : ℚ) / ((original_rate : ℚ) / target_rate))).toNat

/-- `downsample_to_48k(samples, original_rate, target_rate)` from
extract_samples_simple.py: identity when the rates agree, otherwise linear
interpolation to the truncated new length. -/
def downsample_to_48k (samples : List ℚ) (original_rate target_rate : Nat) :
    List ℚ :=
  if original_rate = target_rate then samples
  else
    (List.range (downsampleLen samples.length original_rate target_rate)).map
      (interpAt samples original_rate target_rate)

/-- The error raised by `extract_attack_and_loop` on an unsupported sample
width (`ValueError(f"Unsupported sample width: {width}")`; the spec calls it
`UnsupportedFormatError` naming the width). -/
inductive ExtractError where
  | unsupportedFormat (width : Nat) : ExtractError
deriving DecidableEq

/-- `samples[::2]`: retain every other element (the left channel of an
interleaved stereo stream). -/
def everyOther : List Int → List Int
  | [] => []
  | [a] => [a]
  | a :: _ :: rest => a :: everyOther rest

/-- The decoded header and raw interleaved 16-bit samples of a WAV file, as
read by `extract_attack_and_loop` before format dispatch. -/
structure WavData where
  channels : Nat
  width : Nat
  rate : Nat
  data : List Int

/-- `extract_attack_and_loop` from extract_samples_simple.py, after the WAV
container has been read: 16-bit check (any other width raises), stereo to
mono by taking every other sample, normalization by 32768, attack slice and
loop-cycle search (base frequency fixed at 261.63 Hz). -/
def extract_attack_and_loop (wav : WavData) (attack_ms loop_start_ms : ℚ) :
    Except ExtractError (List ℚ × List ℚ × Nat) :=
  if wav.width = 2 then
    let raw := if wav.channels = 2 then everyOther wav.data else wav.data
    let samples : List ℚ := raw.map (fun s => (s : ℚ) / 32768)
    let attack := extract_attack samples attack_ms wav.rate
    let loop_cycle := find_best_loop_cycle samples loop_start_ms wav.rate
      (26163 / 100)
    .ok (attack, loop_cycle, wav.rate)
  else
    .error (.unsupportedFormat wav.width)

unseal Rat.add Rat.mul Rat.inv Rat.sub in
example : find_best_loop_cycle [-1, 1, -1, 1, -1, 1, -1, 1, -1, 1] 0 10 (5/2)
    = [-1, 1, -1, 1] := by decide

unseal Rat.add Rat.mul Rat.inv Rat.sub in
example : find_best_loop_cycle_np [-1, 1, -1, 1, -1, 1, -1, 1, -1, 1] 0 10 (5/2)
    = [-1, 1] := by decide

unseal Rat.add Rat.mul Rat.inv Rat.sub in
example : downsample_to_48k [1, 2, 3, 4] 4 2 = [1, 3] := by decide

unseal Rat.add Rat.mul Rat.inv Rat.sub in
example : extract_attack [1, 2, 3, 4] 500 2 = [1] := by decide

/-! ### Helper lemmas -/

theorem pySlice_natCast (l : List ℚ) (a b : Nat) :
    pySlice l (a : Int) (b : Int) = (l.take b).drop a := by
  unfold pySlice
  dsimp only
  rw [if_neg (by omega), if_neg (by omega)]
  have h1 : (min (b : Int) (l.length : Int)).toNat = min b l.length := by omega
  have h2 : (min (a : Int) (l.length : Int)).toNat = min a l.length := by omega
  rw [h1, h2]
  have hb : l.take (min b l.length) = l.take b := by
    rcases Nat.le_total b l.length with h | h
    · rw [Nat.min_eq_left h]
    · rw [Nat.min_eq_right h, List.take_length, List.take_of_length_le h]
  rw [hb]
  rcases Nat.le_total a l.length with h | h
  · rw [Nat.min_eq_left h]
  · rw [Nat.min_eq_right h, List.drop_eq_nil_of_le, List.drop_eq_nil_of_le]
    · calc (l.take b).length ≤ l.length := by
            rw [List.length_take]; omega
        _ ≤ a := h
    · calc (l.take b).length ≤ l.length := by
            rw [List.length_take]; omega
        _ ≤ l.length := le_rfl

theorem pySlice_zero_nonneg (l : List ℚ) (b : Int) (hb : 0 ≤ b) :
    pySlice l 0 b = l.take b.toNat := by
  have h := pySlice_natCast l 0 b.toNat
  rw [Nat.cast_zero, Int.toNat_of_nonneg hb, List.drop_zero] at h
  exact h

theorem pyInt_nonneg {q : ℚ} (h : 0 ≤ q) : 0 ≤ pyInt q := by
  rw [pyInt_of_nonneg h]
  exact Int.floor_nonneg.mpr h

/-! ### C5: resampling at the native rate is the identity -/

/-- C5: for every buffer and a target rate equal to the buffer's own rate,
`downsample_to_48k` returns the very same sample list: no interpolation is
performed. -/
theorem resample_identity (samples : List ℚ) (rate : Nat) :
    downsample_to_48k samples rate rate = samples := by
  simp [downsample_to_48k]

/-! ### C6: resample length law -/

/-- C6: for distinct positive rates, the resampled length is exactly
`floor(length * targetRate / originalRate)`, as computed by
`new_len = int(len / ratio)` with `ratio = original_rate / target_rate`. -/
theorem resample_length_law (samples : List ℚ) (original_rate target_rate : Nat)
    (hne : original_rate ≠ target_rate) (ho : 0 < original_rate)
    (ht : 0 < target_rate) :
    (downsample_to_48k samples original_rate target_rate).length
      = (⌊(samples.length : ℚ) * target_rate / original_rate⌋).toNat := by
  rw [downsample_to_48k, if_neg hne, List.length_map, List.length_range,
    downsampleLen]
  have ho' : (0 : ℚ) < original_rate := by exact_mod_cast ho
  have ht' : (0 : ℚ) < target_rate := by exact_mod_cast ht
  have hq : (samples.length : ℚ) / ((original_rate : ℚ) / target_rate)
      = (samples.length : ℚ) * target_rate / original_rate := by
    field_simp
  rw [hq, pyInt_of_nonneg (by positivity)]

/-- Witness for C6 at a concrete input: a 4-sample buffer downsampled from
rate 4 to rate 2 has exactly `floor(4 * 2 / 4) = 2` samples. -/
theorem resample_length_law_witness :
    (downsample_to_48k [1, 2, 3, 4] 4 2).length
      = (⌊(([1, 2, 3, 4] : List ℚ).length : ℚ) * 2 / 4⌋).toNat :=
  resample_length_law [1, 2, 3, 4] 4 2 (by decide) (by decide) (by decide)

/-! ### C7: attack slice -/

/-- C7: for a non-negative attack length, `extract_attack` is the prefix
`buffer[0 : floor(ms * rate / 1000)]` and its length is
`min(length, floor(ms * rate / 1000))`; a short buffer just yields a short
slice. -/
theorem attack_slice_bound (samples : List ℚ) (attack_ms : ℚ) (rate : Nat)
    (h : 0 ≤ attack_ms) :
    extract_attack samples attack_ms rate
        = samples.take (⌊attack_ms * rate / 1000⌋).toNat
      ∧ (extract_attack samples attack_ms rate).length
        = min samples.length (⌊attack_ms * rate / 1000⌋).toNat := by
  have hq : (0 : ℚ) ≤ attack_ms * rate / 1000 := by positivity
  have he : extract_attack samples attack_ms rate
      = samples.take (⌊attack_ms * rate / 1000⌋).toNat := by
    rw [extract_attack, pySlice_zero_nonneg _ _ (pyInt_nonneg hq),
      pyInt_of_nonneg hq]
  refine ⟨he, ?_⟩
  rw [he, List.length_take, Nat.min_comm]

/-- Witness for C7 at a concrete input: 500 ms of a 4-sample buffer at rate
2 is the 1-sample prefix, of length `min 4 1`. -/
theorem attack_slice_bound_witness :
    extract_attack [1, 2, 3, 4] 500 2
        = ([1, 2, 3, 4] : List ℚ).take (⌊(500 : ℚ) * 2 / 1000⌋).toNat
      ∧ (extract_attack [1, 2, 3, 4] 500 2).length
        = min ([1, 2, 3, 4] : List ℚ).length (⌊(500 : ℚ) * 2 / 1000⌋).toNat :=
  attack_slice_bound [1, 2, 3, 4] 500 2 (by norm_num)

/-! ### C8: unsupported sample width -/

/-- C8: the extraction pipeline fails, with the error naming the sample
width, exactly when the width is not 2 bytes (16-bit); for width 2 no such
error is ever produced, and on failure no partial result is returned. -/
theorem unsupported_width_error (wav : WavData) (attack_ms loop_start_ms : ℚ)
    (e : ExtractError) :
    extract_attack_and_loop wav attack_ms loop_start_ms = .error e
      ↔ wav.width ≠ 2 ∧ e = .unsupportedFormat wav.width := by
  by_cases hw : wav.width = 2
  · rw [extract_attack_and_loop, if_pos hw]
    simp [hw]
  · rw [extract_attack_and_loop, if_neg hw]
    simp only [Except.error.injEq, ne_eq, hw, not_false_eq_true, true_and]
    exact eq_comm

/-! ### C10: loop search starting at or past the end of the buffer -/

/-- C10: when the computed start sample is at or past the end of the buffer,
`find_best_loop_cycle` finds no crossings, takes the fallback slice, and
returns the empty buffer — no error. -/
theorem loop_start_past_end (samples : List ℚ) (start_ms : ℚ)
    (sample_rate : Nat) (base_freq : ℚ)
    (h : samples.length ≤ loopStartSample start_ms sample_rate) :
    find_best_loop_cycle samples start_ms sample_rate base_freq = [] := by
  have hcross : loopCrossings samples start_ms sample_rate base_freq = [] := by
    rw [loopCrossings, find_zero_crossings]
    have hfuel : samples.length - 1 - loopStartSample start_ms sample_rate
        = 0 := by omega
    rw [hfuel, fzcGo]
  rw [find_best_loop_cycle, hcross]
  rw [if_pos (by simp), ← Nat.cast_add, pySlice_natCast]
  rw [List.drop_eq_nil_of_le]
  rw [List.length_take]
  omega

unseal Rat.add Rat.mul Rat.inv Rat.sub in
/-- Witness for C10 at a concrete input: a 3-sample buffer with the loop
search starting at 2000 ms at rate 2 (start sample 4) yields the empty
buffer. -/
theorem loop_start_past_end_witness :
    find_best_loop_cycle [1, -1, 1] 2000 2 (5 / 2) = [] :=
  loop_start_past_end [1, -1, 1] 2000 2 (5 / 2) (by decide)

/-! ### C9: the resampler is total -/

/-- C9: for positive rates, every base index `int(i * ratio)` read by the
interpolation loop is strictly inside the input buffer (the `idx + 1` read
is guarded by an explicit bounds check that clamps to `samples[idx]`), and
the empty buffer resamples to the empty buffer. -/
theorem resampler_total (samples : List ℚ) (original_rate target_rate : Nat)
    (ho : 0 < original_rate) (ht : 0 < target_rate) :
    (∀ i, i < (downsample_to_48k samples original_rate target_rate).length →
      (pyInt ((i : ℚ) * ((original_rate : ℚ) / target_rate))).toNat
        < samples.length)
    ∧ downsample_to_48k ([] : List ℚ) original_rate target_rate = [] := by
  have ho' : (0 : ℚ) < original_rate := by exact_mod_cast ho
  have ht' : (0 : ℚ) < target_rate := by exact_mod_cast ht
  have hr : (0 : ℚ) < (original_rate : ℚ) / target_rate := by positivity
  constructor
  · intro i hi
    by_cases h : original_rate = target_rate
    · rw [downsample_to_48k, if_pos h] at hi
      have h1 : (original_rate : ℚ) / target_rate = 1 := by
        rw [h]; exact div_self (ne_of_gt ht')
      rw [h1, mul_one, pyInt_of_nonneg (by positivity), Int.floor_natCast]
      simpa using hi
    · rw [downsample_to_48k, if_neg h, List.length_map, List.length_range,
        downsampleLen, pyInt_of_nonneg (by positivity)] at hi
      have hfl : (i : Int) <
          ⌊(samples.length : ℚ) / ((original_rate : ℚ) / target_rate)⌋ := by
        omega
      have hle : ((i : ℚ) + 1)
          ≤ (samples.length : ℚ) / ((original_rate : ℚ) / target_rate) := by
        have := Int.le_floor.mp (by exact_mod_cast hfl : (i : Int) + 1
          ≤ ⌊(samples.length : ℚ) / ((original_rate : ℚ) / target_rate)⌋)
        push_cast at this
        exact this
      have hlt : (i : ℚ) * ((original_rate : ℚ) / target_rate)
          < samples.length := by
        have h2 : (i : ℚ)
            < (samples.length : ℚ) / ((original_rate : ℚ) / target_rate) := by
          linarith
        exact (lt_div_iff₀ hr).mp h2
      have h3 : ⌊(i : ℚ) * ((original_rate : ℚ) / target_rate)⌋
          < (samples.length : Int) := Int.floor_lt.mpr (by exact_mod_cast hlt)
      have hlen : 0 < samples.length := by
        have : (0 : ℚ) < samples.length := lt_of_le_of_lt (by positivity) hlt
        exact_mod_cast this
      rw [pyInt_of_nonneg (by positivity)]
      omega
  · by_cases h : original_rate = target_rate
    · rw [downsample_to_48k, if_pos h]
    · rw [downsample_to_48k, if_neg h]
      have hz : downsampleLen (List.length ([] : List ℚ)) original_rate
          target_rate = 0 := by
        rw [downsampleLen, List.length_nil, Nat.cast_zero, zero_div,
          pyInt_of_nonneg le_rfl, Int.floor_zero, Int.toNat_zero]
      rw [hz, List.range_zero, List.map_nil]

unseal Rat.add Rat.mul Rat.inv Rat.sub in
/-- Witness for C9 at a concrete input: resampling a 3-sample buffer from
rate 3 to rate 2, output index 1 reads base index `int(1 * 3/2) = 1 < 3`,
and the empty buffer maps to the empty buffer. -/
theorem resampler_total_witness :
    (pyInt ((1 : ℚ) * ((3 : ℚ) / 2))).toNat < ([1, 2, 3] : List ℚ).length
    ∧ downsample_to_48k ([] : List ℚ) 3 2 = [] :=
  ⟨(resampler_total [1, 2, 3] 3 2 (by decide) (by decide)).1 1 (by decide),
    (resampler_total [1, 2, 3] 3 2 (by decide) (by decide)).2⟩

/-! ### C2: crossing spacing invariant and acceptance of the first find -/

/-- The scan loop only ever appends to its accumulator. -/
theorem fzcGo_append (samples : List ℚ) (count min_distance : Nat) :
    ∀ fuel i last acc, ∃ t,
      fzcGo samples count min_distance fuel i last acc = acc ++ t := by
  intro fuel
  induction fuel with
  | zero => exact fun i last acc => ⟨[], by simp [fzcGo]⟩
  | succ fuel ih =>
    intro i last acc
    rw [fzcGo]
    by_cases hc : samples.getD i 0 ≤ 0 ∧ 0 < samples.getD (i + 1) 0 ∧
        (min_distance : Int) ≤ (i : Int) - last
    · rw [fzcStep, if_pos hc]
      by_cases hl : count ≤ (acc ++ [i]).length
      · exact ⟨[i], by rw [if_pos hl]⟩
      · rw [if_neg hl]
        obtain ⟨t, ht⟩ := ih (i + 1) (i : Int) (acc ++ [i])
        exact ⟨[i] ++ t, by rw [ht, List.append_assoc]⟩
    · rw [fzcStep, if_neg hc]
      by_cases hl : count ≤ acc.length
      · exact ⟨[], by rw [if_pos hl, List.append_nil]⟩
      · rw [if_neg hl]
        exact ih (i + 1) last acc

/-- Invariant of the scan loop: if the accumulator is spaced by at least
`min_distance` and its last element is the `last_crossing` baseline, the
final crossing list is spaced by at least `min_distance`. -/
theorem fzcGo_chain (samples : List ℚ) (count min_distance : Nat) :
    ∀ fuel i last acc,
      List.Chain' (fun a b => a + min_distance ≤ b) acc →
      (∀ x, acc.getLast? = some x → (x : Int) = last) →
      List.Chain' (fun a b => a + min_distance ≤ b)
        (fzcGo samples count min_distance fuel i last acc) := by
  intro fuel
  induction fuel with
  | zero => intro i last acc hchain _; simpa [fzcGo] using hchain
  | succ fuel ih =>
    intro i last acc hchain hlast
    rw [fzcGo]
    by_cases hc : samples.getD i 0 ≤ 0 ∧ 0 < samples.getD (i + 1) 0 ∧
        (min_distance : Int) ≤ (i : Int) - last
    · rw [fzcStep, if_pos hc]
      have hchain' : List.Chain' (fun a b => a + min_distance ≤ b)
          (acc ++ [i]) := by
        rw [List.chain'_append]
        refine ⟨hchain, List.chain'_singleton i, ?_⟩
        intro x hx y hy
        have hx' : (x : Int) = last := hlast x hx
        have hy' : i = y := by simpa using hy
        have := hc.2.2
        omega
      by_cases hl : count ≤ (acc ++ [i]).length
      · rw [if_pos hl]; exact hchain'
      · rw [if_neg hl]
        refine ih (i + 1) (i : Int) (acc ++ [i]) hchain' ?_
        intro x hx
        rw [List.getLast?_concat] at hx
        have hxi : x = i := by simpa using hx.symm
        rw [hxi]
    · rw [fzcStep, if_neg hc]
      by_cases hl : count ≤ acc.length
      · rw [if_pos hl]; exact hchain
      · rw [if_neg hl]
        exact ih (i + 1) last acc hchain hlast

/-- The rising-crossing test of both finders, as a Boolean predicate:
`samples[i] <= 0 and samples[i+1] > 0`. -/
def isRisingCrossing (samples : List ℚ) (i : Nat) : Bool :=
  decide (samples.getD i 0 ≤ 0 ∧ 0 < samples.getD (i + 1) 0)

/-- Starting from an empty accumulator and the `-min_distance` baseline,
the head of the crossing list is the first index of the scan range that
passes the rising-crossing test: the baseline never rejects it. -/
theorem fzcGo_head (samples : List ℚ) (count min_distance : Nat)
    (hcount : 1 ≤ count) :
    ∀ fuel i,
      (fzcGo samples count min_distance fuel i (-(min_distance : Int))
          []).head?
        = (List.range' i fuel).find? (isRisingCrossing samples) := by
  intro fuel
  induction fuel with
  | zero => intro i; simp [fzcGo]
  | succ fuel ih =>
    intro i
    rw [fzcGo, List.range'_succ, List.find?]
    by_cases hp : samples.getD i 0 ≤ 0 ∧ 0 < samples.getD (i + 1) 0
    · have hc : samples.getD i 0 ≤ 0 ∧ 0 < samples.getD (i + 1) 0 ∧
          (min_distance : Int) ≤ (i : Int) - (-(min_distance : Int)) := by
        exact ⟨hp.1, hp.2, by omega⟩
      rw [fzcStep, if_pos hc]
      have hpb : isRisingCrossing samples i = true := by
        simpa [isRisingCrossing] using hp
      rw [hpb]
      by_cases hl : count ≤ (([] : List Nat) ++ [i]).length
      · rw [if_pos hl]; rfl
      · rw [if_neg hl]
        obtain ⟨t, ht⟩ := fzcGo_append samples count min_distance fuel (i + 1)
          (i : Int) ([] ++ [i])
        rw [ht]
        rfl
    · have hc : ¬(samples.getD i 0 ≤ 0 ∧ 0 < samples.getD (i + 1) 0 ∧
          (min_distance : Int) ≤ (i : Int) - (-(min_distance : Int))) := by
        intro h
        exact hp ⟨h.1, h.2.1⟩
      rw [fzcStep, if_neg hc]
      have hpb : isRisingCrossing samples i = false := by
        simpa [isRisingCrossing] using hp
      rw [hpb]
      rw [if_neg (by simp; omega)]
      exact ih (i + 1)

/-- Spacing of the crossing list, stated on `getD`: the shared core of the
crossing-spacing invariant. -/
theorem fzc_spacing_getD (samples : List ℚ) (start_idx count min_distance : Nat)
    (k : Nat)
    (hk : k + 1 < (find_zero_crossings samples start_idx count
      min_distance).length) :
    (find_zero_crossings samples start_idx count min_distance).getD k 0
        + min_distance
      ≤ (find_zero_crossings samples start_idx count min_distance).getD
          (k + 1) 0 := by
  have hchain := fzcGo_chain samples count min_distance
    (samples.length - 1 - start_idx) start_idx (-(min_distance : Int)) []
    (List.chain'_nil) (by intro x hx; simp at hx)
  rw [find_zero_crossings] at *
  set l := fzcGo samples count min_distance
    (samples.length - 1 - start_idx) start_idx (-(min_distance : Int)) []
  have hget := List.chain'_iff_get.mp hchain k (by omega)
  have h1 : l.getD k 0 = l.get ⟨k, by omega⟩ := by
    rw [List.getD_eq_getElem?_getD, List.getElem?_eq_getElem (by omega)]
    rfl
  have h2 : l.getD (k + 1) 0 = l.get ⟨k + 1, by omega⟩ := by
    rw [List.getD_eq_getElem?_getD, List.getElem?_eq_getElem (by omega)]
    rfl
  rw [h1, h2]
  exact hget

/-- C2: consecutive crossings returned by `find_zero_crossings` are at
least `min_distance` apart, and when at least one crossing is requested the
first index passing the rising-crossing test is always accepted as the head
of the result (the `-min_distance` baseline cannot reject it). -/
theorem crossing_spacing (samples : List ℚ) (start_idx count min_distance : Nat) :
    (∀ k, k + 1 < (find_zero_crossings samples start_idx count
        min_distance).length →
      (find_zero_crossings samples start_idx count min_distance).getD k 0
          + min_distance
        ≤ (find_zero_crossings samples start_idx count min_distance).getD
            (k + 1) 0)
    ∧ (1 ≤ count →
      (find_zero_crossings samples start_idx count min_distance).head?
        = (List.range' start_idx (samples.length - 1 - start_idx)).find?
            (isRisingCrossing samples)) := by
  refine ⟨fun k hk => fzc_spacing_getD samples start_idx count min_distance k hk,
    fun hcount => ?_⟩
  rw [find_zero_crossings]
  exact fzcGo_head samples count min_distance hcount
    (samples.length - 1 - start_idx) start_idx

/-- Witness for C2 at a concrete input: on an alternating buffer with
`min_distance = 3`, the crossings `[0, 4, 8]` are spaced by at least 3 and
the head is the first rising crossing of the scan. -/
theorem crossing_spacing_witness :
    ((find_zero_crossings [-1, 1, -1, 1, -1, 1, -1, 1, -1, 1] 0 10 3).getD 0 0
          + 3
        ≤ (find_zero_crossings [-1, 1, -1, 1, -1, 1, -1, 1, -1, 1] 0 10
            3).getD 1 0)
    ∧ (find_zero_crossings [-1, 1, -1, 1, -1, 1, -1, 1, -1, 1] 0 10 3).head?
      = (List.range' 0
          (([-1, 1, -1, 1, -1, 1, -1, 1, -1, 1] : List ℚ).length - 1 - 0)).find?
          (isRisingCrossing [-1, 1, -1, 1, -1, 1, -1, 1, -1, 1]) :=
  ⟨(crossing_spacing [-1, 1, -1, 1, -1, 1, -1, 1, -1, 1] 0 10 3).1 0
      (by decide),
    (crossing_spacing [-1, 1, -1, 1, -1, 1, -1, 1, -1, 1] 0 10 3).2
      (by decide)⟩

/-! ### C1: loop selection optimality -/

/-- The best-pair scan keeps the index of a minimal score, preferring the
lowest index among ties: after scanning `range m` (for `m ≥ 1`) the state
holds an index below `m` whose score is recorded, minimal, and
first-attained. -/
theorem bestScan_spec (d : Nat → Nat) :
    ∀ m, 1 ≤ m →
      (bestScan d m).1 < m
      ∧ (bestScan d m).2 = some (d (bestScan d m).1)
      ∧ (∀ j, j < m → d (bestScan d m).1 ≤ d j)
      ∧ (∀ j, j < m → d j = d (bestScan d m).1 → (bestScan d m).1 ≤ j) := by
  intro m
  induction m with
  | zero => intro h; exact absurd h (by omega)
  | succ m ih =>
    intro _
    by_cases hm : 1 ≤ m
    · have hstep : bestScan d (m + 1)
          = (fun (st : Nat × Option Nat) i =>
              match st.2 with
              | none => (i, some (d i))
              | some bd => if d i < bd then (i, some (d i)) else st)
            (bestScan d m) m := by
        rw [bestScan, List.range_succ, List.foldl_append, List.foldl_cons,
          List.foldl_nil]
        rfl
      obtain ⟨h1, h2, h3, h4⟩ := ih hm
      rw [hstep]
      dsimp only
      rw [h2]
      dsimp only
      by_cases hd : d m < d (bestScan d m).1
      · rw [if_pos hd]
        dsimp only
        refine ⟨by omega, rfl, ?_, ?_⟩
        · intro j hj
          rcases Nat.lt_succ_iff_lt_or_eq.mp hj with hj' | hj'
          · exact le_of_lt (lt_of_lt_of_le hd (h3 j hj'))
          · rw [hj']
        · intro j hj hde
          rcases Nat.lt_succ_iff_lt_or_eq.mp hj with hj' | hj'
          · exact absurd (h3 j hj') (by rw [hde]; omega)
          · omega
      · rw [if_neg hd]
        refine ⟨by omega, h2, ?_, ?_⟩
        · intro j hj
          rcases Nat.lt_succ_iff_lt_or_eq.mp hj with hj' | hj'
          · exact h3 j hj'
          · rw [hj']; omega
        · intro j hj hde
          rcases Nat.lt_succ_iff_lt_or_eq.mp hj with hj' | hj'
          · exact h4 j hj' hde
          · omega
    · have h0 : m = 0 := by omega
      subst h0
      have hval : bestScan d 1 = (0, some (d 0)) := by
        rw [bestScan, List.range_succ, List.range_zero, List.nil_append,
          List.foldl_cons, List.foldl_nil]
      rw [hval]
      refine ⟨by omega, rfl, ?_, ?_⟩
      · intro j hj
        have : j = 0 := by omega
        rw [this]
      · intro j _ _
        omega

/-- Every index the scan loop accepts is a valid crossing position: its
successor sample is still inside the buffer. -/
theorem fzcGo_mem_lt (samples : List ℚ) (count min_distance : Nat) :
    ∀ fuel i last acc,
      (i + fuel ≤ samples.length - 1 ∨ fuel = 0) →
      (∀ x ∈ acc, x + 1 < samples.length) →
      ∀ x ∈ fzcGo samples count min_distance fuel i last acc,
        x + 1 < samples.length := by
  intro fuel
  induction fuel with
  | zero => intro i last acc _ hacc; simpa [fzcGo] using hacc
  | succ fuel ih =>
    intro i last acc hfuel hacc
    have hif : i + fuel + 1 ≤ samples.length - 1 := by omega
    rw [fzcGo]
    by_cases hc : samples.getD i 0 ≤ 0 ∧ 0 < samples.getD (i + 1) 0 ∧
        (min_distance : Int) ≤ (i : Int) - last
    · rw [fzcStep, if_pos hc]
      have hacc' : ∀ x ∈ acc ++ [i], x + 1 < samples.length := by
        intro x hx
        rcases List.mem_append.mp hx with hx' | hx'
        · exact hacc x hx'
        · have : x = i := by simpa using hx'
          omega
      by_cases hl : count ≤ (acc ++ [i]).length
      · rw [if_pos hl]; exact hacc'
      · rw [if_neg hl]
        exact ih (i + 1) (i : Int) (acc ++ [i]) (by omega) hacc'
    · rw [fzcStep, if_neg hc]
      by_cases hl : count ≤ acc.length
      · rw [if_pos hl]; exact hacc
      · rw [if_neg hl]
        exact ih (i + 1) last acc (by omega) hacc

/-- Every crossing index returned by `find_zero_crossings` has its
successor sample inside the buffer. -/
theorem fzc_mem_lt (samples : List ℚ) (start_idx count min_distance : Nat) :
    ∀ x ∈ find_zero_crossings samples start_idx count min_distance,
      x + 1 < samples.length := by
  rw [find_zero_crossings]
  exact fzcGo_mem_lt samples count min_distance
    (samples.length - 1 - start_idx) start_idx (-(min_distance : Int)) []
    (by omega) (by intro x hx; simp at hx)

/-- C1: with at least two crossings, `find_best_loop_cycle` returns the
slice between the adjacent pair selected by the strict-improvement
left-to-right scan: the pair index is in range, the result is exactly that
slice, its length is the pair's spacing, and that spacing is at least as
close to the expected cycle length as every other adjacent pair's, with
ties resolved to the lowest index. -/
theorem loop_selection_optimal (samples : List ℚ) (start_ms : ℚ)
    (sample_rate : Nat) (base_freq : ℚ) (C : List Nat) (E b : Nat)
    (hC : C = loopCrossings samples start_ms sample_rate base_freq)
    (hE : E = expectedCycleLen sample_rate base_freq)
    (hb : b = findBestIdx C E)
    (h2 : 2 ≤ C.length) :
    b + 1 < C.length
    ∧ find_best_loop_cycle samples start_ms sample_rate base_freq
      = pySlice samples (C.getD b 0) (C.getD (b + 1) 0)
    ∧ (find_best_loop_cycle samples start_ms sample_rate base_freq).length
      = C.getD (b + 1) 0 - C.getD b 0
    ∧ ∀ k, k + 1 < C.length →
        diffAt C E b ≤ diffAt C E k
        ∧ (diffAt C E k = diffAt C E b → b ≤ k)
        ∧ (((find_best_loop_cycle samples start_ms sample_rate
              base_freq).length : Int) - (E : Int)).natAbs
          ≤ diffAt C E k := by
  obtain ⟨hblt, _, hopt, htie⟩ :=
    bestScan_spec (diffAt C E) (C.length - 1) (by omega)
  have hCf : C = find_zero_crossings samples
      (loopStartSample start_ms sample_rate) 10
      (loopMinDist sample_rate base_freq) := hC
  have hbexp : b = (bestScan (diffAt C E) (C.length - 1)).1 := hb
  have hbm : b + 1 < C.length := by omega
  have heq : find_best_loop_cycle samples start_ms sample_rate base_freq
      = pySlice samples (C.getD b 0) (C.getD (b + 1) 0) := by
    rw [find_best_loop_cycle]
    dsimp only
    rw [if_neg (by rw [← hC]; omega), ← hC, ← hE, ← hb]
  have hmem : C.getD (b + 1) 0 ∈ C := by
    have hget : C.getD (b + 1) 0 = C.get ⟨b + 1, by omega⟩ := by
      rw [List.getD_eq_getElem?_getD, List.getElem?_eq_getElem (by omega)]
      rfl
    rw [hget]
    exact List.get_mem C (b + 1) (by omega)
  have hmem' : C.getD (b + 1) 0 ∈ find_zero_crossings samples
      (loopStartSample start_ms sample_rate) 10
      (loopMinDist sample_rate base_freq) := by
    rw [← hCf]
    exact hmem
  have hub : C.getD (b + 1) 0 + 1 < samples.length :=
    fzc_mem_lt samples (loopStartSample start_ms sample_rate) 10
      (loopMinDist sample_rate base_freq) _ hmem'
  have hmono : C.getD b 0 + loopMinDist sample_rate base_freq
      ≤ C.getD (b + 1) 0 := by
    have h := fzc_spacing_getD samples (loopStartSample start_ms sample_rate)
      10 (loopMinDist sample_rate base_freq) b (by rw [← hCf]; omega)
    rw [← hCf] at h
    exact h
  have hlen : (find_best_loop_cycle samples start_ms sample_rate
      base_freq).length = C.getD (b + 1) 0 - C.getD b 0 := by
    rw [heq, pySlice_natCast, List.length_drop, List.length_take]
    omega
  refine ⟨hbm, heq, hlen, ?_⟩
  intro k hk
  have hoptk : diffAt C E b ≤ diffAt C E k := by
    rw [hbexp]
    exact hopt k (by omega)
  refine ⟨hoptk, ?_, ?_⟩
  · intro hde
    rw [hbexp]
    refine htie k (by omega) ?_
    rw [hbexp] at hde
    exact hde
  · have hcast : ((C.getD (b + 1) 0 - C.getD b 0 : Nat) : Int)
        = (C.getD (b + 1) 0 : Int) - (C.getD b 0 : Int) := by
      omega
    have hdiffb : (((find_best_loop_cycle samples start_ms sample_rate
        base_freq).length : Int) - (E : Int)).natAbs = diffAt C E b := by
      rw [hlen, hcast, diffAt]
    rw [hdiffb]
    exact hoptk

unseal Rat.add Rat.mul Rat.inv Rat.sub in
/-- Witness for C1 at a concrete input: the alternating 10-sample buffer at
rate 8 and base frequency 2 has crossings `[0, 4, 8]`, expected cycle
length 4, and best pair index 0 (a tie with pair 1, resolved to the lower
index); instantiated at the other pair `k = 1`. -/
theorem loop_selection_optimal_witness :
    diffAt [0, 4, 8] 4 0 ≤ diffAt [0, 4, 8] 4 1
    ∧ (diffAt [0, 4, 8] 4 1 = diffAt [0, 4, 8] 4 0 → (0 : Nat) ≤ 1)
    ∧ (((find_best_loop_cycle [-1, 1, -1, 1, -1, 1, -1, 1, -1, 1] 0 8
          2).length : Int) - ((4 : Nat) : Int)).natAbs
      ≤ diffAt [0, 4, 8] 4 1 :=
  (loop_selection_optimal [-1, 1, -1, 1, -1, 1, -1, 1, -1, 1] 0 8 2
    [0, 4, 8] 4 0 (by decide) (by decide) (by decide) (by decide)).2.2.2 1
    (by decide)

/-! ### C4: fallback when fewer than two crossings are found -/

/-- C4: when the crossing search inside `find_best_loop_cycle` finds fewer
than two crossings, the result is exactly the fixed-length slice
`samples[start_sample : start_sample + expected_cycle_len]` — a defined
value, not an error. -/
theorem fallback_slice (samples : List ℚ) (start_ms : ℚ) (sample_rate : Nat)
    (base_freq : ℚ)
    (h : (loopCrossings samples start_ms sample_rate base_freq).length < 2) :
    find_best_loop_cycle samples start_ms sample_rate base_freq
      = pySlice samples (loopStartSample start_ms sample_rate)
          ((loopStartSample start_ms sample_rate : Int)
            + (expectedCycleLen sample_rate base_freq : Int))
    ∧ find_best_loop_cycle samples start_ms sample_rate base_freq
      = (samples.take (loopStartSample start_ms sample_rate
            + expectedCycleLen sample_rate base_freq)).drop
          (loopStartSample start_ms sample_rate) := by
  have h1 : find_best_loop_cycle samples start_ms sample_rate base_freq
      = pySlice samples (loopStartSample start_ms sample_rate)
          ((loopStartSample start_ms sample_rate : Int)
            + (expectedCycleLen sample_rate base_freq : Int)) := by
    rw [find_best_loop_cycle]
    dsimp only
    rw [if_pos h]
  refine ⟨h1, ?_⟩
  rw [h1, ← Nat.cast_add, pySlice_natCast]

unseal Rat.add Rat.mul Rat.inv Rat.sub in
/-- Witness for C4 at a concrete input: a flat-zero 5-sample buffer at rate
4 and base frequency 2 (expected cycle length 2, start sample 0) has no
crossings, and the fallback returns the 2-sample slice from the start. -/
theorem fallback_slice_witness :
    find_best_loop_cycle [0, 0, 0, 0, 0] 0 4 2
        = pySlice [0, 0, 0, 0, 0] (loopStartSample 0 4)
            ((loopStartSample 0 4 : Int) + (expectedCycleLen 4 2 : Int))
    ∧ find_best_loop_cycle [0, 0, 0, 0, 0] 0 4 2
      = (([0, 0, 0, 0, 0] : List ℚ).take (loopStartSample 0 4
            + expectedCycleLen 4 2)).drop (loopStartSample 0 4) :=
  fallback_slice [0, 0, 0, 0, 0] 0 4 2 (by decide)

/-! ### C3: the two pipelines are not the same algorithm -/

unseal Rat.add Rat.mul Rat.inv Rat.sub in
/-- Counterexample to C3: on the alternating buffer the numpy pipeline's
crossing finder returns `[0, 2, 4, 6, 8]` while the pure one (at its
declared defaults, `min_distance = 100`) returns `[0]`, and the two
`find_best_loop_cycle` variants return slices of different lengths at rate
10 and base frequency 5/2. -/
theorem pipelines_differ :
    find_zero_crossings_np [-1, 1, -1, 1, -1, 1, -1, 1, -1, 1] 0
        ≠ find_zero_crossings [-1, 1, -1, 1, -1, 1, -1, 1, -1, 1] 0 10 100
    ∧ find_best_loop_cycle_np [-1, 1, -1, 1, -1, 1, -1, 1, -1, 1] 0 10 (5 / 2)
        ≠ find_best_loop_cycle [-1, 1, -1, 1, -1, 1, -1, 1, -1, 1] 0 10
            (5 / 2) := by
  constructor
  · decide
  · decide

/-- The numpy scan loop is the pure scan loop with the minimum-distance
filter switched off (`min_distance = 0`): with a baseline at or below the
cursor the filter accepts exactly the rising-crossing test. -/
theorem fzcNpGo_eq_fzcGo (samples : List ℚ) :
    ∀ fuel (i : Nat) acc (last : Int), last ≤ (i : Int) →
      fzcNpGo samples fuel i acc = fzcGo samples 10 0 fuel i last acc := by
  intro fuel
  induction fuel with
  | zero => intro i acc last _; rw [fzcNpGo, fzcGo]
  | succ fuel ih =>
    intro i acc last hlast
    rw [fzcNpGo, fzcGo]
    by_cases hp : samples.getD i 0 ≤ 0 ∧ 0 < samples.getD (i + 1) 0
    · have hstep : fzcStep samples 0 i last acc = (acc ++ [i], (i : Int)) := by
        rw [fzcStep, if_pos ⟨hp.1, hp.2, by push_cast; omega⟩]
      rw [hstep, if_pos hp]
      dsimp only
      by_cases hl : 10 ≤ (acc ++ [i]).length
      · rw [if_pos hl, if_pos hl]
      · rw [if_neg hl, if_neg hl]
        exact ih (i + 1) (acc ++ [i]) (i : Int) (by omega)
    · have hstep : fzcStep samples 0 i last acc = (acc, last) := by
        rw [fzcStep, if_neg (fun hcon => hp ⟨hcon.1, hcon.2.1⟩)]
      rw [hstep, if_neg hp]
      dsimp only
      by_cases hl : 10 ≤ acc.length
      · rw [if_pos hl, if_pos hl]
      · rw [if_neg hl, if_neg hl]
        exact ih (i + 1) acc last (by omega)

/-- C3 as amended: the two pipelines agree exactly up to the
minimum-distance filter. The numpy crossing finder equals the pure one with
`min_distance = 0` on every buffer and start index; and whenever the pure
pipeline's computed crossing sequence coincides with the numpy one's, the
two loop-cycle selections return the same slice. (They differ in general:
see the counterexample.) -/
theorem pipelines_agree_modulo_filter :
    (∀ samples start_idx,
      find_zero_crossings_np samples start_idx
        = find_zero_crossings samples start_idx 10 0)
    ∧ (∀ samples start_ms sample_rate base_freq,
        loopCrossings samples start_ms sample_rate base_freq
          = find_zero_crossings_np samples
              (loopStartSample start_ms sample_rate) →
        find_best_loop_cycle samples start_ms sample_rate base_freq
          = find_best_loop_cycle_np samples start_ms sample_rate base_freq) := by
  constructor
  · intro samples start_idx
    rw [find_zero_crossings_np, find_zero_crossings]
    exact fzcNpGo_eq_fzcGo samples (samples.length - 1 - start_idx) start_idx
      [] _ (by omega)
  · intro samples start_ms sample_rate base_freq h
    rw [find_best_loop_cycle, find_best_loop_cycle_np]
    dsimp only
    rw [h]

unseal Rat.add Rat.mul Rat.inv Rat.sub in
/-- Witness for the amended C3 at concrete inputs: on the alternating
buffer the two finders agree when `min_distance = 0`, and at rate 1 and
base frequency 2 (where the computed `min_dist` is 0, so the filter is
inert) the two loop-cycle selections coincide. -/
theorem pipelines_agree_modulo_filter_witness :
    find_zero_crossings_np [-1, 1, -1, 1, -1, 1, -1, 1, -1, 1] 0
        = find_zero_crossings [-1, 1, -1, 1, -1, 1, -1, 1, -1, 1] 0 10 0
    ∧ find_best_loop_cycle [-1, 1, -1, 1, -1, 1, -1, 1, -1, 1] 0 1 2
      = find_best_loop_cycle_np [-1, 1, -1, 1, -1, 1, -1, 1, -1, 1] 0 1 2 :=
  ⟨pipelines_agree_modulo_filter.1 [-1, 1, -1, 1, -1, 1, -1, 1, -1, 1] 0,
    pipelines_agree_modulo_filter.2 [-1, 1, -1, 1, -1, 1, -1, 1, -1, 1] 0 1 2
      (by decide)⟩

end M1Piano
